import Mathlib

/-!
Verification of the bit-banged One-Wire Interface driver (`avr_1wire.cpp` /
`avr_1wire.h`): line-level reset, byte transfer, the identifier registry and
its lookups, and the ROM search engine, shallowly embedded over an abstract
bus environment.  64-bit device identifiers are modelled as `Nat` values
below `2 ^ 64`; the `AOWI_device_ID` union's byte array is the little-endian
byte decomposition of that number, so `bytes[b / 8]` bit `b % 8` is bit `b`
of the number.
-/

namespace OWire

/-- Size of the identifier table (`avr_1wire.h`: `AOWI_NUM_IDS = 3`). -/
abbrev AOWI_NUM_IDS : Nat := 3

/-- `avr_1wire::get_ID_bit` applied to the identifier value stored at the
given table slot: the source reads `bytes[which_bit / 8] & (1 << (which_bit % 8))`
of the id union, i.e. bit `8 * (bit / 8) + bit % 8` of the 64-bit number. -/
def get_ID_bit (id : Nat) (which_bit : Nat) : Bool :=
  Nat.testBit id (8 * (which_bit / 8) + which_bit % 8)

/-- `avr_1wire::set_ID_bit` applied to the identifier value stored at the
given table slot: sets (`pByte |= bit_mask`) or clears (`pByte &= ~bit_mask`)
bit `which_bit % 8` of byte `which_bit / 8` of the union. -/
def set_ID_bit (id : Nat) (which_bit : Nat) (new_bit : Bool) : Nat :=
  if new_bit then id ||| 2 ^ (8 * (which_bit / 8) + which_bit % 8)
  else id &&& ((2 ^ 64 - 1) ^^^ 2 ^ (8 * (which_bit / 8) + which_bit % 8))

/-- Presence-pulse poll loop of `avr_1wire::reset` (lines 108-116): repeatedly
sample the line; loop while it reads low; return false once the retry counter
reaches the ceiling, true as soon as the line reads high.  `line t` is the
`t`-th sample of `data_inport & data_mask` taken by `reset`; the fuel
argument counts the remaining retries before the `end_tout >= AOWI_PRES_END`
exit fires. -/
def resetPoll (line : Nat → Bool) : Nat → Nat → Bool
  | t, 0 => line t
  | t, k+1 => if line t then true else resetPoll line (t+1) k

/-- `avr_1wire::reset` (lines 88-121): after driving the reset pulse and
waiting the presence window, sample the line (sample 0): if it is already
high nobody is home, return false.  Otherwise poll until the presence pulse
ends, bounded by `AOWI_PRES_END` retries (`presEnd`, a build-time constant
`F_CPU / 100`).  The delays themselves carry no information and are not
modelled. -/
def reset (line : Nat → Bool) (presEnd : Nat) : Bool :=
  if line 0 then false else resetPoll line 1 presEnd

/-- `avr_1wire::write_byte` (lines 214-228): the sequence of bits put on the
bus, one per `write_1`/`write_0` call, for mask `0x01, 0x02, ..., 0x80` —
least significant bit first. -/
def write_byte (the_byte : Nat) : List Bool :=
  (List.range 8).map (fun i => Nat.testBit the_byte i)

/-- `avr_1wire::write_byte_rev` (lines 238-252): the sequence of bits put on
the bus for mask `0x80, 0x40, ..., 0x01` — most significant bit first. -/
def write_byte_rev (the_byte : Nat) : List Bool :=
  (List.range 8).map (fun i => Nat.testBit the_byte (7 - i))

/-- Bit-assembly loop of `avr_1wire::read_byte` (lines 294-309): for the
masks `0x01 .. 0x80` in turn, sample the bus and or the mask into the
accumulator when the sample is high.  `sample i` is the bus level sampled in
the `i`-th slot. -/
def read_byte_bits (sample : Nat → Bool) : Nat → Nat → Nat → Nat
  | _, 0, acc => acc
  | i, rem+1, acc =>
    read_byte_bits sample (i+1) rem (if sample i then acc ||| 2 ^ i else acc)

/-- `avr_1wire::read_byte` (lines 290-311): zeroes the output character,
assembles 8 sampled bits LSB-first, and always returns `false` (no problem
detected) — there is no data-integrity check at this layer. -/
def read_byte (sample : Nat → Bool) : Bool × Nat :=
  (false, read_byte_bits sample 0 8 0)

/-- Most-significant-bit-first reassembly of a transmitted bit sequence (the
echo-read direction paired with `write_byte_rev` in the round-trip claim). -/
def assembleMSB (bs : List Bool) : Nat :=
  bs.foldl (fun a b => 2 * a + (if b then 1 else 0)) 0

/-- `avr_1wire::get_ID` (lines 339-347): bounds-checked table read; an index
at or beyond `AOWI_NUM_IDS` yields 0, an in-range index yields the stored
64-bit number.  The method reads only; it never modifies the table. -/
def get_ID (reg : Fin AOWI_NUM_IDS → Nat) (which_one : Nat) : Nat :=
  if h : AOWI_NUM_IDS ≤ which_one then 0
  else reg ⟨which_one, Nat.lt_of_not_le h⟩

/-- `avr_1wire::find_by_ID` (lines 358-373): linear scan of the three table
slots comparing `num64` against the argument; first match wins, `0xFF` if
none (the `AOWI_NUM_IDS = 3` loop is unrolled). -/
def find_by_ID (reg : Fin AOWI_NUM_IDS → Nat) (an_ID : Nat) : Nat :=
  if reg 0 = an_ID then 0
  else if reg 1 = an_ID then 1
  else if reg 2 = an_ID then 2
  else 0xFF

/-- `avr_1wire::find_by_type` (lines 386-401): linear scan comparing
`bytes[0]` — the low byte of the little-endian union, i.e. `num64 % 256` —
against the 8-bit type code; first match wins, `0xFF` if none (the
`AOWI_NUM_IDS = 3` loop is unrolled). -/
def find_by_type (reg : Fin AOWI_NUM_IDS → Nat) (type_ID : Nat) : Nat :=
  if reg 0 % 256 = type_ID % 256 then 0
  else if reg 1 % 256 = type_ID % 256 then 1
  else if reg 2 % 256 = type_ID % 256 then 2
  else 0xFF

/-- `avr_1wire::match_ROM` (lines 262-278): the sequence of bits put on the
bus — `write_byte (0x55)` followed by the 64 identifier bits of table entry
`index`, positions 0 to 63 ascending, each sent with `write_1` when the bit
is 1 and `write_0` when it is 0. -/
def match_ROM (reg : Fin AOWI_NUM_IDS → Nat) (index : Fin AOWI_NUM_IDS) :
    List Bool :=
  write_byte 0x55 ++ (List.range 64).map (fun bit => get_ID_bit (reg index) bit)

/-- Modelled from the spec: the behaviour of a one-wire slave device during
Match ROM is not part of the repository (it is the external hardware).  Per
the spec, after the addressing command a device compares each of the 64
transmitted identifier bits with its own and drops out at the first
mismatch, so it remains listening exactly when the 64 bits following the
8 command bits equal its own identifier bits in ascending position order. -/
def remainsListening (d : Nat) (sent : List Bool) : Bool :=
  decide (sent.drop 8 = (List.range 64).map (fun i => Nat.testBit d i))

/-- Abstract bus environment seen by `avr_1wire::search`: the three
primitives it drives — `reset()` (returning the presence flag), `read_bit()`
and `write_1`/`write_0` (merged into `writeBit`) — as state transformers
over an environment state `S`. -/
structure OWEnv (S : Type) where
  resetE : S → Bool × S
  readBit : S → Bool × S
  writeBit : Bool → S → S

/-- Result of one discovery pass of `search` (the inner 64-bit loop):
the accumulated identifier bits of the current slot, the final `high_conf`
and `conflict` values, the `bit_error` flag, the bit position logged by the
error diagnostic (if any) and the final environment state. -/
structure PassOut (S : Type) where
  acc : Nat
  hc : Nat
  conflict : Bool
  err : Bool
  diag : Option Nat
  st : S

/-- Inner loop of `avr_1wire::search` (lines 486-522), `for (bit = 0; bit < 64
&& !bit_error; bit++)`: read the two complementary bits; on `(0,0)` either
resolve the conflict carried from the previous pass (`last_hcnf == bit`:
write 1 and record the bit) or open a new one (record the position in
`high_conf`, set `conflict`, write 0); on `(1,0)` record 1 and write 1; on
`(0,1)` write 0; on `(1,1)` set `bit_error`, which exits the loop.  The
`set_ID_bit` calls of the source write into the current registry slot as the
pass runs; here they accumulate in `acc`, which the caller stores in that
slot — the slot was zeroed beforehand, so the values coincide, including the
partial value left behind by a `bit_error` exit. -/
def passFrom {S : Type} (E : OWEnv S) (lastHcnf : Nat) :
    Nat → Nat → Nat → Nat → Bool → S → PassOut S
  | _, 0, acc, hc, cf, s => ⟨acc, hc, cf, false, none, s⟩
  | bit, rem+1, acc, hc, cf, s =>
    let ra := E.readBit s
    let rb := E.readBit ra.2
    if !ra.1 && !rb.1 then
      if lastHcnf = bit then
        passFrom E lastHcnf (bit+1) rem (set_ID_bit acc bit true) hc cf
          (E.writeBit true rb.2)
      else
        passFrom E lastHcnf (bit+1) rem acc bit true (E.writeBit false rb.2)
    else if ra.1 && !rb.1 then
      passFrom E lastHcnf (bit+1) rem (set_ID_bit acc bit true) hc cf
        (E.writeBit true rb.2)
    else if !ra.1 && rb.1 then
      passFrom E lastHcnf (bit+1) rem acc hc cf (E.writeBit false rb.2)
    else
      ⟨acc, hc, cf, true, some bit, rb.2⟩

/-- `avr_1wire::write_byte` viewed as an action on the bus environment:
eight `writeBit` calls, least significant bit first. -/
def writeByteE {S : Type} (E : OWEnv S) (the_byte : Nat) (s : S) : S :=
  (List.range 8).foldl (fun st i => E.writeBit (Nat.testBit the_byte i) st) s

/-- Result of `avr_1wire::search`: the identifier table, the list of bit
positions reported by the bit-error diagnostic (`DBG ... " bit " << bit`),
and the final environment state. -/
structure SearchOut (S : Type) where
  reg : Fin AOWI_NUM_IDS → Nat
  diag : List Nat
  st : S

/-- Store a 64-bit identifier into table slot `i` (the effect of the
`set_ID_bit (which_ID, ...)` calls of one pass on the table). -/
def regSet (reg : Fin AOWI_NUM_IDS → Nat) (i : Nat) (v : Nat) :
    Fin AOWI_NUM_IDS → Nat :=
  fun j => if j.val = i then v else reg j

/-- Outer loop of `avr_1wire::search` (lines 475-526), `for (which_ID = 0;
which_ID < AOWI_NUM_IDS; which_ID++)`: send reset (returning from `search`
when no presence is detected), send the Search ROM command `0xF0`, run the
64-bit pass with `last_hcnf` equal to the previous pass's `high_conf` and
`high_conf` re-initialised to 99, store the accumulated bits into slot
`which_ID`, then `break` when the pass saw no conflict or hit a bit error.
`rem` is the fuel `AOWI_NUM_IDS - which_ID` of the loop bound. -/
def searchFrom {S : Type} (E : OWEnv S) :
    Nat → (Fin AOWI_NUM_IDS → Nat) → Nat → Nat → S → SearchOut S
  | 0, reg, _, _, s => ⟨reg, [], s⟩
  | rem+1, reg, whichID, highConf, s =>
    let pr := E.resetE s
    if !pr.1 then ⟨reg, [], pr.2⟩
    else
      let s2 := writeByteE E 0xF0 pr.2
      let out := passFrom E highConf 0 64 0 99 false s2
      let reg2 := regSet reg whichID out.acc
      let d := match out.diag with | none => [] | some b => [b]
      if !out.conflict || out.err then ⟨reg2, d, out.st⟩
      else
        let rest := searchFrom E rem reg2 (whichID+1) out.hc out.st
        ⟨rest.reg, d ++ rest.diag, rest.st⟩

/-- The zeroing loop at the head of `avr_1wire::search` (lines 469-472):
every table entry is set to 0, whatever it held before. -/
def clear_table (reg : Fin AOWI_NUM_IDS → Nat) : Fin AOWI_NUM_IDS → Nat :=
  fun _ => 0

/-- `avr_1wire::search` (lines 458-527): zero the table, then run up to
`AOWI_NUM_IDS` discovery passes with `high_conf` initialised to 99. -/
def search {S : Type} (E : OWEnv S) (s : S) (prior : Fin AOWI_NUM_IDS → Nat) :
    SearchOut S :=
  searchFrom E AOWI_NUM_IDS (clear_table prior) 0 99 s

/-- Phase of the simulated synthetic bus: receiving a command byte
(LSB-first, `n` bits seen, value `acc` so far), responding to a ROM search
at identifier bit `pos` (`reads` complementary read slots already served), or
idle (command other than Search ROM). -/
inductive SimMode where
  | cmd (n : Nat) (acc : Nat)
  | searching (pos : Nat) (reads : Nat)
  | idle

/-- State of the simulated synthetic bus: the devices wired to it and, per
the spec's wired-AND search protocol, the subset still participating in the
current pass. -/
structure SimSt where
  devs : List Nat
  parts : List Nat
  mode : SimMode

/-- Modelled from the spec: a reset pulse on the synthetic bus.  Every
wired device asserts a presence pulse, so presence is detected exactly when
the device list is nonempty; all devices then await a command and will
participate in a search. -/
def simReset (s : SimSt) : Bool × SimSt :=
  (!s.devs.isEmpty, ⟨s.devs, s.devs, SimMode.cmd 0 0⟩)

/-- Modelled from the spec: a read slot on the synthetic wired-AND bus.
During the search response, each still-participating device first drives its
true identifier bit, then its complement; the line reads 1 only if no
participant drives 0 (an empty participant set leaves the line pulled
high, producing the `(1,1)` no-response case). -/
def simRead (s : SimSt) : Bool × SimSt :=
  match s.mode with
  | SimMode.searching pos 0 =>
    (s.parts.all (fun d => Nat.testBit d pos),
     ⟨s.devs, s.parts, SimMode.searching pos 1⟩)
  | SimMode.searching pos 1 =>
    (s.parts.all (fun d => !Nat.testBit d pos),
     ⟨s.devs, s.parts, SimMode.searching pos 2⟩)
  | _ => (true, s)

/-- Modelled from the spec: a master write slot on the synthetic bus.
During command reception the bits accumulate LSB-first; a completed `0xF0`
byte is the Search ROM command and starts the search response at bit 0.
During the search, devices whose identifier bit differs from the written
bit drop out of the pass. -/
def simWrite (w : Bool) (s : SimSt) : SimSt :=
  match s.mode with
  | SimMode.cmd n acc =>
    let acc2 := acc + (if w then 2 ^ n else 0)
    if n = 7 then
      if acc2 = 0xF0 then ⟨s.devs, s.parts, SimMode.searching 0 0⟩
      else ⟨s.devs, s.parts, SimMode.idle⟩
    else ⟨s.devs, s.parts, SimMode.cmd (n+1) acc2⟩
  | SimMode.searching pos _ =>
    ⟨s.devs, s.parts.filter (fun d => Nat.testBit d pos == w),
     SimMode.searching (pos+1) 0⟩
  | SimMode.idle => s

/-- The synthetic wired-AND bus as an environment for `search`. -/
def simEnv : OWEnv SimSt := ⟨simReset, simRead, simWrite⟩

/-- Initial state of a synthetic bus carrying the given device
identifiers. -/
def simInit (devs : List Nat) : SimSt := ⟨devs, [], SimMode.idle⟩

/-- A scripted bus environment: reset always reports presence, writes are
absorbed, and the `c`-th `read_bit` call returns `f c`.  Used to drive
`search` with an arbitrary (possibly erroneous) pattern of sampled bits. -/
def scrEnv (f : Nat → Bool) : OWEnv Nat :=
  ⟨fun s => (true, s), fun s => (f s, s + 1), fun _ s => s⟩

/-- The identifier bits accumulated by a first discovery pass over the
scripted environment after `j` bit positions: position `i` is recorded as 1
exactly when the two complementary reads for it were `(1,0)`. -/
def scrAccum (f : Nat → Bool) : Nat → Nat
  | 0 => 0
  | j+1 =>
    if f (2*j) && !f (2*j+1) then scrAccum f j ||| 2 ^ j else scrAccum f j

/-- An environment whose reset never detects presence (an idle bus). -/
def noPresenceEnv : OWEnv Unit :=
  ⟨fun s => (false, s), fun s => (true, s), fun _ s => s⟩

/-! ## Basic lemmas about the bit helpers -/

theorem get_ID_bit_eq (id bit : Nat) : get_ID_bit id bit = Nat.testBit id bit := by
  unfold get_ID_bit
  rw [Nat.div_add_mod]

theorem set_ID_bit_true (id bit : Nat) :
    set_ID_bit id bit true = id ||| 2 ^ bit := by
  unfold set_ID_bit
  rw [if_pos rfl, Nat.div_add_mod]

/-! ## C3: reset presence detection -/

theorem resetPoll_eq_true_iff (line : Nat → Bool) :
    ∀ k t, resetPoll line t k = true ↔ ∃ i, i ≤ k ∧ line (t + i) = true := by
  intro k
  induction k with
  | zero =>
    intro t
    constructor
    · intro h
      exact ⟨0, Nat.le_refl 0, by simpa using h⟩
    · rintro ⟨i, hi, hl⟩
      have hi0 : i = 0 := Nat.le_zero.mp hi
      subst hi0
      simpa using hl
  | succ k ih =>
    intro t
    by_cases h : line t = true
    · simp only [resetPoll, h, if_true, true_iff]
      exact ⟨0, Nat.zero_le _, by simpa using h⟩
    · have hf : line t = false := Bool.eq_false_iff.mpr h
      simp only [resetPoll, hf, Bool.false_eq_true, if_false]
      rw [ih (t+1)]
      constructor
      · rintro ⟨i, hi, hl⟩
        refine ⟨i + 1, by omega, ?_⟩
        rw [show t + (i + 1) = t + 1 + i by omega]
        exact hl
      · rintro ⟨i, hi, hl⟩
        match i, hl with
        | 0, hl => exact absurd (by simpa using hl) h
        | i+1, hl =>
          refine ⟨i, by omega, ?_⟩
          rw [show t + 1 + i = t + (i + 1) by omega]
          exact hl

/-- C3: `reset()` returns true iff a presence pulse is seen: false when the
line already samples high at the first sample after the presence-detect wait
(sample 0 — idle bus), false when the line never returns high within the
`AOWI_PRES_END` retry ceiling (samples 1 through `presEnd + 1` all low), and
true otherwise. -/
theorem reset_true_iff (line : Nat → Bool) (presEnd : Nat) :
    reset line presEnd = true ↔
      (line 0 = false ∧ ∃ i, i ≤ presEnd ∧ line (1 + i) = true) := by
  unfold reset
  by_cases h0 : line 0 = true
  · simp [h0]
  · have hf : line 0 = false := Bool.eq_false_iff.mpr h0
    simp only [hf, Bool.false_eq_true, if_false, true_and]
    exact resetPoll_eq_true_iff line presEnd 1

/-! ## C4: byte write round-trips -/

set_option maxRecDepth 4096 in
/-- C4: for every byte value, `write_byte` transmits the 8 bits LSB-first
and `write_byte_rev` MSB-first: echoing `write_byte`'s bits back through the
bit-assembly of `read_byte` recovers the byte, and MSB-first reassembly of
`write_byte_rev`'s bits recovers the byte. -/
theorem write_byte_roundtrip :
    ∀ b : Fin 256,
      (read_byte (fun i => (write_byte b.val).getD i false)).2 = b.val ∧
      assembleMSB (write_byte_rev b.val) = b.val := by
  decide

/-! ## C5: read_byte assembly -/

theorem read_byte_bits_testBit (sample : Nat → Bool) :
    ∀ rem i acc, (∀ t, i ≤ t → Nat.testBit acc t = false) →
      ∀ j, Nat.testBit (read_byte_bits sample i rem acc) j =
        if i ≤ j ∧ j < i + rem then sample j else Nat.testBit acc j := by
  intro rem
  induction rem with
  | zero =>
    intro i acc _ j
    have hcond : ¬ (i ≤ j ∧ j < i + 0) := by omega
    rw [if_neg hcond]
    simp [read_byte_bits]
  | succ rem ih =>
    intro i acc hz j
    have hz2 : ∀ t, i + 1 ≤ t →
        Nat.testBit (if sample i then acc ||| 2 ^ i else acc) t = false := by
      intro t ht
      by_cases hs : sample i
      · simp [hs, Nat.testBit_or, hz t (by omega),
          Nat.testBit_two_pow_of_ne (by omega : i ≠ t)]
      · simp [hs, hz t (by omega)]
    rw [read_byte_bits, ih (i+1) _ hz2 j]
    by_cases h1 : i + 1 ≤ j ∧ j < i + 1 + rem
    · have h2 : i ≤ j ∧ j < i + (rem + 1) := by omega
      rw [if_pos h1, if_pos h2]
    · rw [if_neg h1]
      by_cases hj : j = i
      · subst hj
        have h2 : j ≤ j ∧ j < j + (rem + 1) := by omega
        rw [if_pos h2]
        by_cases hs : sample j
        · simp [hs, Nat.testBit_or, Nat.testBit_two_pow_self]
        · simp [hs, hz j (Nat.le_refl j)]
      · have h2 : ¬ (i ≤ j ∧ j < i + (rem + 1)) := by omega
        rw [if_neg h2]
        by_cases hs : sample i
        · simp [hs, Nat.testBit_or, Nat.testBit_two_pow_of_ne (by omega : i ≠ j)]
        · simp [hs]

/-- C5: `read_byte` assembles its output from the 8 sampled bus bits in
LSB-first order — bit `i` of the returned byte is the `i`-th sampled bit —
and the returned error flag is always `false`, regardless of the samples. -/
theorem read_byte_lsb_no_error (sample : Nat → Bool) :
    (read_byte sample).1 = false ∧
      ∀ i : Fin 8, Nat.testBit (read_byte sample).2 i.val = sample i.val := by
  refine ⟨rfl, fun i => ?_⟩
  have h := read_byte_bits_testBit sample 8 0 0
    (fun t _ => Nat.zero_testBit t) i.val
  have hcond : 0 ≤ i.val ∧ i.val < 0 + 8 := ⟨Nat.zero_le _, by omega⟩
  rw [if_pos hcond] at h
  exact h

/-! ## C7: find_by_type scan -/

/-- C7: `find_by_type` returns the sentinel `0xFF` exactly when no table
entry's low byte equals the requested family code, and otherwise returns the
lowest matching index of the ascending scan: the entry at the returned index
matches and no entry below it does. -/
theorem find_by_type_first_match (reg : Fin AOWI_NUM_IDS → Nat) (c : Nat) :
    (find_by_type reg c = 0xFF ↔
      ∀ i : Fin AOWI_NUM_IDS, reg i % 256 ≠ c % 256) ∧
    (find_by_type reg c < AOWI_NUM_IDS →
      get_ID reg (find_by_type reg c) % 256 = c % 256) ∧
    (∀ j : Fin AOWI_NUM_IDS, j.val < find_by_type reg c →
      reg j % 256 ≠ c % 256) := by
  unfold find_by_type
  by_cases h0 : reg 0 % 256 = c % 256
  · simp only [h0, if_true]
    refine ⟨⟨fun h => absurd h (by norm_num), fun hall => absurd h0 (hall 0)⟩,
      fun _ => by simpa [get_ID] using h0, fun j hj => absurd hj (by omega)⟩
  · rw [if_neg h0]
    by_cases h1 : reg 1 % 256 = c % 256
    · simp only [h1, if_true]
      refine ⟨⟨fun h => absurd h (by norm_num), fun hall => absurd h1 (hall 1)⟩,
        fun _ => by simpa [get_ID] using h1, fun j hj => ?_⟩
      have : j.val = 0 := by omega
      have hj0 : j = 0 := Fin.ext this
      rw [hj0]; exact h0
    · rw [if_neg h1]
      by_cases h2 : reg 2 % 256 = c % 256
      · simp only [h2, if_true]
        refine ⟨⟨fun h => absurd h (by norm_num), fun hall => absurd h2 (hall 2)⟩,
          fun _ => by simpa [get_ID] using h2, fun j hj => ?_⟩
        match j, hj with
        | ⟨0, _⟩, _ => exact h0
        | ⟨1, _⟩, _ => exact h1
      · rw [if_neg h2]
        refine ⟨⟨fun _ => fun i => ?_, fun _ => rfl⟩,
          fun h => absurd h (by norm_num), fun j _ => ?_⟩
        · match i with
          | ⟨0, _⟩ => exact h0
          | ⟨1, _⟩ => exact h1
          | ⟨2, _⟩ => exact h2
        · match j with
          | ⟨0, _⟩ => exact h0
          | ⟨1, _⟩ => exact h1
          | ⟨2, _⟩ => exact h2

theorem find_by_type_first_match_witness :
    find_by_type (fun _ => 0x12) 0x12 < AOWI_NUM_IDS ∧
      get_ID (fun _ => 0x12) (find_by_type (fun _ => 0x12) 0x12) % 256 =
        0x12 % 256 :=
  ⟨by decide, (find_by_type_first_match (fun _ => 0x12) 0x12).2.1 (by decide)⟩

/-! ## C8: get_ID bounds check -/

/-- C8: `get_ID` returns 0 for every index at or beyond the table capacity,
without failing (it is a pure read and modifies nothing), and returns the
stored 64-bit value for every in-range index; in particular, in the
two-device scenario of the spec, the untouched slot 2 reads back as 0. -/
theorem get_ID_spec :
    (∀ (reg : Fin AOWI_NUM_IDS → Nat) (i : Nat),
      (AOWI_NUM_IDS ≤ i → get_ID reg i = 0) ∧
      ∀ h : i < AOWI_NUM_IDS, get_ID reg i = reg ⟨i, h⟩) ∧
    get_ID (search simEnv (simInit [0x10AABBCCDDEE7A, 0x22112233445B])
      (fun _ => 0)).reg 2 = 0 := by
  constructor
  · intro reg i
    constructor
    · intro h
      simp [get_ID, h]
    · intro h
      have hn : ¬ AOWI_NUM_IDS ≤ i := Nat.not_le.mpr h
      simp [get_ID, hn]
  · decide

theorem get_ID_lt (reg : Fin AOWI_NUM_IDS → Nat) (i : Nat)
    (h : i < AOWI_NUM_IDS) : get_ID reg i = reg ⟨i, h⟩ := by
  have hn : ¬ AOWI_NUM_IDS ≤ i := Nat.not_le.mpr h
  simp [get_ID, hn]

theorem get_ID_spec_witness :
    AOWI_NUM_IDS ≤ 7 ∧ get_ID (fun _ => 5) 7 = 0 :=
  ⟨by decide, (get_ID_spec.1 (fun _ => 5) 7).1 (by decide)⟩

/-! ## C9: search clears the registry -/

theorem searchFrom_no_presence {S : Type} (E : OWEnv S) (s : S)
    (reg : Fin AOWI_NUM_IDS → Nat) (rem whichID hc : Nat)
    (h : (E.resetE s).1 = false) :
    searchFrom E (rem+1) reg whichID hc s = ⟨reg, [], (E.resetE s).2⟩ := by
  simp [searchFrom, h]

/-- C9: every call to `search()` zeroes all registry slots before any
discovery pass — its result does not depend on the prior table contents —
and when the first `reset()` detects no presence it returns with every slot
zero: `get_ID` of any index yields 0. -/
theorem search_clears_registry {S : Type} (E : OWEnv S) (s : S)
    (r1 r2 : Fin AOWI_NUM_IDS → Nat) :
    search E s r1 = search E s r2 ∧
    ((E.resetE s).1 = false → ∀ i : Nat, get_ID (search E s r1).reg i = 0) := by
  constructor
  · rfl
  · intro h i
    have hreg : (search E s r1).reg = clear_table r1 := by
      show (searchFrom E (2+1) (clear_table r1) 0 99 s).reg = clear_table r1
      rw [searchFrom_no_presence E s _ 2 0 99 h]
    rw [hreg]
    unfold get_ID clear_table
    split <;> rfl

theorem search_clears_registry_witness :
    (noPresenceEnv.resetE ()).1 = false ∧
      get_ID (search noPresenceEnv () (fun _ => 5)).reg 1 = 0 :=
  ⟨rfl, (search_clears_registry noPresenceEnv () (fun _ => 5) (fun _ => 9)).2 rfl 1⟩

/-! ## C10: the all-zero empty marker is not distinguished by the lookups -/

/-- C10: an empty (all-zero) slot is not distinguished from real data by the
lookups: whenever some slot is zero, `find_by_ID 0` returns the index of the
first zero slot rather than the `0xFF` sentinel, and — provided no populated
entry has family code 0 — `find_by_type 0` returns that same first empty
slot index. -/
theorem find_zero_first_empty (reg : Fin AOWI_NUM_IDS → Nat) :
    (∀ i0 : Fin AOWI_NUM_IDS, reg i0 = 0 →
      find_by_ID reg 0 ≠ 0xFF ∧
      find_by_ID reg 0 < AOWI_NUM_IDS ∧
      get_ID reg (find_by_ID reg 0) = 0 ∧
      (∀ j : Fin AOWI_NUM_IDS, j.val < find_by_ID reg 0 → reg j ≠ 0)) ∧
    ((∀ i : Fin AOWI_NUM_IDS, reg i ≠ 0 → reg i % 256 ≠ 0) →
      (∃ i0 : Fin AOWI_NUM_IDS, reg i0 = 0) →
      find_by_type reg 0 = find_by_ID reg 0) := by
  have hbyte : ∀ i : Fin AOWI_NUM_IDS, reg i = 0 → reg i % 256 = 0 % 256 := by
    intro i h
    rw [h]
  constructor
  · intro i0 h0
    unfold find_by_ID
    by_cases ha : reg 0 = 0
    · simp only [ha, if_true]
      refine ⟨by norm_num, by norm_num, ?_, fun j hj => absurd hj (by omega)⟩
      rw [get_ID_lt reg 0 (by norm_num)]
      exact ha
    · rw [if_neg ha]
      by_cases hb : reg 1 = 0
      · simp only [hb, if_true]
        refine ⟨by norm_num, by norm_num, ?_, fun j hj => ?_⟩
        · rw [get_ID_lt reg 1 (by norm_num)]
          exact hb
        · rcases j with ⟨jv, hjv⟩
          have hj2 : jv < 1 := hj
          interval_cases jv
          exact ha
      · rw [if_neg hb]
        by_cases hc : reg 2 = 0
        · simp only [hc, if_true]
          refine ⟨by norm_num, by norm_num, ?_, fun j hj => ?_⟩
          · rw [get_ID_lt reg 2 (by norm_num)]
            exact hc
          · rcases j with ⟨jv, hjv⟩
            have hj2 : jv < 2 := hj
            interval_cases jv
            · exact ha
            · exact hb
        · rw [if_neg hc]
          exfalso
          rcases i0 with ⟨iv, hiv⟩
          have hi2 : iv < 3 := hiv
          interval_cases iv
          · exact ha h0
          · exact hb h0
          · exact hc h0
  · intro hnz hex
    unfold find_by_ID find_by_type
    by_cases ha : reg 0 = 0
    · rw [if_pos (hbyte 0 ha), if_pos ha]
    · have ha2 : ¬ reg 0 % 256 = 0 % 256 := by
        simpa using hnz 0 ha
      rw [if_neg ha2, if_neg ha]
      by_cases hb : reg 1 = 0
      · rw [if_pos (hbyte 1 hb), if_pos hb]
      · have hb2 : ¬ reg 1 % 256 = 0 % 256 := by
          simpa using hnz 1 hb
        rw [if_neg hb2, if_neg hb]
        by_cases hc : reg 2 = 0
        · rw [if_pos (hbyte 2 hc), if_pos hc]
        · exfalso
          rcases hex with ⟨i0, h0⟩
          rcases i0 with ⟨iv, hiv⟩
          have hi2 : iv < 3 := hiv
          interval_cases iv
          · exact ha h0
          · exact hb h0
          · exact hc h0

theorem find_zero_first_empty_witness :
    (fun i : Fin AOWI_NUM_IDS => if i.val = 0 then (7:Nat) else 0) 1 = 0 ∧
      find_by_ID (fun i : Fin AOWI_NUM_IDS => if i.val = 0 then (7:Nat) else 0) 0 ≠ 0xFF ∧
      find_by_type (fun i : Fin AOWI_NUM_IDS => if i.val = 0 then (7:Nat) else 0) 0 =
        find_by_ID (fun i : Fin AOWI_NUM_IDS => if i.val = 0 then (7:Nat) else 0) 0 :=
  ⟨by decide,
   ((find_zero_first_empty (fun i => if i.val = 0 then 7 else 0)).1 1 (by decide)).1,
   (find_zero_first_empty (fun i => if i.val = 0 then 7 else 0)).2
     (by decide) ⟨1, by decide⟩⟩

/-! ## C6: match_ROM addresses exactly one device -/

theorem map_range_eq_iff (f g : Nat → Bool) :
    ∀ n, (List.range n).map f = (List.range n).map g ↔ ∀ i, i < n → f i = g i := by
  intro n
  induction n with
  | zero => simp
  | succ n ih =>
    rw [List.range_succ, List.map_append, List.map_append]
    constructor
    · intro h
      have hparts := List.append_inj h (by simp)
      have hfn : f n = g n := by simpa using hparts.2
      have hlow := ih.mp hparts.1
      intro i hi
      rcases Nat.lt_succ_iff_lt_or_eq.mp hi with hlt | heq
      · exact hlow i hlt
      · rw [heq]; exact hfn
    · intro h
      rw [ih.mpr (fun i hi => h i (by omega))]
      simp [h n (by omega)]

theorem testBit_eq_of_lt_of_agree {a b : Nat} (ha : a < 2 ^ 64) (hb : b < 2 ^ 64)
    (h : ∀ j, j < 64 → Nat.testBit a j = Nat.testBit b j) : a = b := by
  apply Nat.eq_of_testBit_eq
  intro j
  by_cases hj : j < 64
  · exact h j hj
  · have h64 : (2:Nat) ^ 64 ≤ 2 ^ j :=
      Nat.pow_le_pow_right (by norm_num) (by omega)
    rw [Nat.testBit_lt_two_pow (lt_of_lt_of_le ha h64),
      Nat.testBit_lt_two_pow (lt_of_lt_of_le hb h64)]

/-- C6: `match_ROM(index)` transmits exactly the addressing command byte
`0x55` LSB-first followed by the 64 bits of the registry entry at `index` in
ascending position order (`write_1` for a 1 bit, `write_0` for a 0 bit);
consequently, on the wired-AND bus a device remains listening afterward
exactly when its identifier equals that registry entry. -/
theorem match_ROM_addresses_unique (reg : Fin AOWI_NUM_IDS → Nat)
    (index : Fin AOWI_NUM_IDS) (hb : reg index < 2 ^ 64) :
    match_ROM reg index =
      write_byte 0x55 ++
        (List.range 64).map (fun bit => Nat.testBit (reg index) bit) ∧
    ∀ d : Nat, d < 2 ^ 64 →
      (remainsListening d (match_ROM reg index) = true ↔ d = reg index) := by
  have hpayload : match_ROM reg index =
      write_byte 0x55 ++
        (List.range 64).map (fun bit => Nat.testBit (reg index) bit) := by
    unfold match_ROM
    simp only [get_ID_bit_eq]
  refine ⟨hpayload, fun d hd => ?_⟩
  unfold remainsListening
  rw [decide_eq_true_eq, hpayload]
  have hlen : (write_byte 0x55).length = 8 := by simp [write_byte]
  rw [show (8:Nat) = (write_byte 0x55).length from hlen.symm, List.drop_left]
  rw [map_range_eq_iff]
  constructor
  · intro h
    exact testBit_eq_of_lt_of_agree hd hb fun j hj => (h j hj).symm
  · intro h
    rw [h]
    exact fun i _ => rfl

theorem match_ROM_addresses_unique_witness :
    (5:Nat) < 2 ^ 64 ∧
      (remainsListening 5 (match_ROM (fun _ => 5) 0) = true ↔
        (5:Nat) = (fun _ : Fin AOWI_NUM_IDS => (5:Nat)) 0) :=
  ⟨by norm_num,
   (match_ROM_addresses_unique (fun _ => 5) 0 (by norm_num)).2 5 (by norm_num)⟩

/-! ## C2: behaviour of search at a (1,1) bit error -/

theorem passFrom_scripted (f : Nat → Bool) (j : Nat)
    (hj1 : f (2 * j) = true) (hj2 : f (2 * j + 1) = true)
    (hmin : ∀ i, i < j → f (2 * i) = false ∨ f (2 * i + 1) = false) :
    ∀ rem b, b ≤ j → j < b + rem → b + rem ≤ 64 →
      ∀ hc cf,
        (passFrom (scrEnv f) 99 b rem (scrAccum f b) hc cf (2 * b)).err = true ∧
        (passFrom (scrEnv f) 99 b rem (scrAccum f b) hc cf (2 * b)).diag = some j ∧
        (passFrom (scrEnv f) 99 b rem (scrAccum f b) hc cf (2 * b)).acc =
          scrAccum f j := by
  intro rem
  induction rem with
  | zero =>
    intro b _ h2 _ hc cf
    omega
  | succ rem ih =>
    intro b hbj hjr h64 hc cf
    by_cases hbeq : b = j
    · subst hbeq
      simp [passFrom, scrEnv, hj1, hj2]
    · have hblt : b < j := by omega
      have hst : 2 * b + 1 + 1 = 2 * (b + 1) := by omega
      cases hf1 : f (2 * b) <;> cases hf2 : f (2 * b + 1)
      · -- (0,0): new conflict, write 0, bit not recorded
        have hne : ¬ (99 = b) := by omega
        have hacc : scrAccum f (b + 1) = scrAccum f b := by
          simp [scrAccum, hf1]
        simp only [passFrom, scrEnv, hf1, hf2, Bool.not_false, Bool.not_true,
          Bool.and_self, Bool.and_false, Bool.false_and, if_true, if_false,
          hne, ite_false, ite_true]
        rw [hst, ← hacc]
        exact ih (b + 1) (by omega) (by omega) (by omega) b true
      · -- (0,1): all zeros, write 0, bit not recorded
        have hacc : scrAccum f (b + 1) = scrAccum f b := by
          simp [scrAccum, hf1]
        simp only [passFrom, scrEnv, hf1, hf2, Bool.not_false, Bool.not_true,
          Bool.and_self, Bool.and_false, Bool.false_and, Bool.and_true,
          if_true, if_false, ite_false, ite_true]
        rw [hst, ← hacc]
        exact ih (b + 1) (by omega) (by omega) (by omega) hc cf
      · -- (1,0): all ones, record bit, write 1
        have hacc : scrAccum f (b + 1) = set_ID_bit (scrAccum f b) b true := by
          rw [set_ID_bit_true]
          simp [scrAccum, hf1, hf2]
        simp only [passFrom, scrEnv, hf1, hf2, Bool.not_false, Bool.not_true,
          Bool.and_self, Bool.and_false, Bool.false_and, Bool.true_and,
          if_true, if_false, ite_false, ite_true]
        rw [hst, ← hacc]
        exact ih (b + 1) (by omega) (by omega) (by omega) hc cf
      · -- (1,1) before j: impossible, j is the first such position
        rcases hmin b hblt with hmf | hmf
        · rw [hf1] at hmf; exact absurd hmf (by simp)
        · rw [hf2] at hmf; exact absurd hmf (by simp)

theorem searchFrom_err_step {S : Type} (E : OWEnv S) (s : S)
    (reg : Fin AOWI_NUM_IDS → Nat) (rem whichID hc j : Nat)
    (hpr : (E.resetE s).1 = true)
    (herr : (passFrom E hc 0 64 0 99 false
      (writeByteE E 0xF0 (E.resetE s).2)).err = true)
    (hdg : (passFrom E hc 0 64 0 99 false
      (writeByteE E 0xF0 (E.resetE s).2)).diag = some j) :
    searchFrom E (rem+1) reg whichID hc s =
      ⟨regSet reg whichID (passFrom E hc 0 64 0 99 false
          (writeByteE E 0xF0 (E.resetE s).2)).acc,
       [j],
       (passFrom E hc 0 64 0 99 false (writeByteE E 0xF0 (E.resetE s).2)).st⟩ := by
  simp only [searchFrom, hpr, Bool.not_true, Bool.false_eq_true, if_false,
    herr, Bool.or_true, if_true, hdg]

/-- C2 (amended): when the two complementary reads of a first discovery pass
both return 1 at bit position `j` (and at no earlier position), the pass is
aborted and the whole search stops — slots 1 and 2 stay zero and exactly one
bit-error diagnostic (naming bit `j`) is emitted — but the partially
accumulated identifier bits are left stored in slot 0 rather than being
reverted. -/
theorem search_bit_error_stops (f : Nat → Bool) (prior : Fin AOWI_NUM_IDS → Nat)
    (j : Nat) (hj : j < 64) (hj1 : f (2 * j) = true) (hj2 : f (2 * j + 1) = true)
    (hmin : ∀ i, i < j → f (2 * i) = false ∨ f (2 * i + 1) = false) :
    (search (scrEnv f) 0 prior).diag = [j] ∧
    (search (scrEnv f) 0 prior).reg 0 = scrAccum f j ∧
    (search (scrEnv f) 0 prior).reg 1 = 0 ∧
    (search (scrEnv f) 0 prior).reg 2 = 0 := by
  have hpass := passFrom_scripted f j hj1 hj2 hmin 64 0 (by omega) (by omega)
    (by omega) 99 false
  rw [show 2 * 0 = 0 from rfl, show scrAccum f 0 = 0 from rfl] at hpass
  have hs : search (scrEnv f) 0 prior =
      ⟨regSet (clear_table prior) 0
          (passFrom (scrEnv f) 99 0 64 0 99 false 0).acc,
       [j],
       (passFrom (scrEnv f) 99 0 64 0 99 false 0).st⟩ :=
    searchFrom_err_step (scrEnv f) 0 (clear_table prior) 2 0 99 j rfl
      hpass.1 hpass.2.1
  rw [hs, hpass.2.2]
  exact ⟨rfl, rfl, rfl, rfl⟩

/-- C2 counterexample: with reads scripted so that bit 0 decodes as a 1 and
bit 1 reads (1,1), `search` flags the error at bit 1 but leaves the
partially accumulated value 1 stored in registry slot 0 — the partial value
IS left stored, contradicting the claim's final clause. -/
theorem search_partial_left_stored_counterexample :
    (search (scrEnv (fun n => decide (n ≠ 1))) 0 (fun _ => 0)).reg 0 = 1 ∧
    (search (scrEnv (fun n => decide (n ≠ 1))) 0 (fun _ => 0)).reg 0 ≠ 0 ∧
    (search (scrEnv (fun n => decide (n ≠ 1))) 0 (fun _ => 0)).diag = [1] := by
  decide

theorem search_bit_error_stops_witness :
    (fun n => decide (n ≠ 1)) (2 * 1) = true ∧
    (fun n => decide (n ≠ 1)) (2 * 1 + 1) = true ∧
    (search (scrEnv (fun n => decide (n ≠ 1))) 0 (fun _ => 0)).diag = [1] :=
  ⟨by decide, by decide,
   (search_bit_error_stops (fun n => decide (n ≠ 1)) (fun _ => 0) 1 (by decide)
     (by decide) (by decide) (by decide)).1⟩

/-! ## C1: what search actually guarantees on a synthetic bus -/

theorem sim_filter_true (devs parts : List Nat) (bit acc : Nat)
    (hsub : ∀ d, d ∈ parts → d ∈ devs)
    (hagr : ∀ d, d ∈ parts → ∀ j, j < bit → Nat.testBit d j = Nat.testBit acc j)
    (hhi : ∀ j, bit ≤ j → Nat.testBit acc j = false) :
    (∀ d, d ∈ parts.filter (fun d => Nat.testBit d bit == true) → d ∈ devs) ∧
    (∀ d, d ∈ parts.filter (fun d => Nat.testBit d bit == true) →
      ∀ j, j < bit + 1 → Nat.testBit d j = Nat.testBit (acc ||| 2 ^ bit) j) ∧
    (∀ j, bit + 1 ≤ j → Nat.testBit (acc ||| 2 ^ bit) j = false) := by
  refine ⟨fun d hd => hsub d (List.mem_filter.mp hd).1, fun d hd j hj => ?_,
    fun j hj => ?_⟩
  · obtain ⟨hdm, hdw⟩ := List.mem_filter.mp hd
    have hdb : Nat.testBit d bit = true := by simpa using hdw
    by_cases hjb : j = bit
    · subst hjb
      simp [hdb, Nat.testBit_or, Nat.testBit_two_pow_self]
    · rw [Nat.testBit_or, Nat.testBit_two_pow_of_ne (by omega : bit ≠ j),
        Bool.or_false]
      exact hagr d hdm j (by omega)
  · rw [Nat.testBit_or, Nat.testBit_two_pow_of_ne (by omega : bit ≠ j),
      Bool.or_false]
    exact hhi j (by omega)

theorem sim_filter_false (devs parts : List Nat) (bit acc : Nat)
    (hsub : ∀ d, d ∈ parts → d ∈ devs)
    (hagr : ∀ d, d ∈ parts → ∀ j, j < bit → Nat.testBit d j = Nat.testBit acc j)
    (hhi : ∀ j, bit ≤ j → Nat.testBit acc j = false) :
    (∀ d, d ∈ parts.filter (fun d => Nat.testBit d bit == false) → d ∈ devs) ∧
    (∀ d, d ∈ parts.filter (fun d => Nat.testBit d bit == false) →
      ∀ j, j < bit + 1 → Nat.testBit d j = Nat.testBit acc j) ∧
    (∀ j, bit + 1 ≤ j → Nat.testBit acc j = false) := by
  refine ⟨fun d hd => hsub d (List.mem_filter.mp hd).1, fun d hd j hj => ?_,
    fun j hj => hhi j (by omega)⟩
  obtain ⟨hdm, hdw⟩ := List.mem_filter.mp hd
  have hdb : Nat.testBit d bit = false := by simpa using hdw
  by_cases hjb : j = bit
  · subst hjb
    rw [hdb, hhi j (Nat.le_refl j)]
  · exact hagr d hdm j (by omega)

theorem passFrom_sim (devs : List Nat) :
    ∀ (rem bit acc hc : Nat) (cf : Bool) (lastH : Nat) (parts : List Nat),
      parts ≠ [] →
      (∀ d, d ∈ parts → d ∈ devs) →
      (∀ d, d ∈ parts → ∀ j, j < bit → Nat.testBit d j = Nat.testBit acc j) →
      (∀ j, bit ≤ j → Nat.testBit acc j = false) →
      ∃ (pf : List Nat) (acc2 hc2 : Nat) (cf2 : Bool),
        passFrom simEnv lastH bit rem acc hc cf
            ⟨devs, parts, SimMode.searching bit 0⟩ =
          ⟨acc2, hc2, cf2, false, none,
           ⟨devs, pf, SimMode.searching (bit + rem) 0⟩⟩ ∧
        pf ≠ [] ∧
        (∀ d, d ∈ pf → d ∈ devs) ∧
        (∀ d, d ∈ pf → ∀ j, j < bit + rem →
          Nat.testBit d j = Nat.testBit acc2 j) ∧
        (∀ j, bit + rem ≤ j → Nat.testBit acc2 j = false) := by
  intro rem
  induction rem with
  | zero =>
    intro bit acc hc cf lastH parts hne hsub hagr hhi
    exact ⟨parts, acc, hc, cf, by simp [passFrom], hne, hsub,
      fun d hd j hj => hagr d hd j (by omega), fun j hj => hhi j (by omega)⟩
  | succ rem ih =>
    intro bit acc hc cf lastH parts hne hsub hagr hhi
    have hr1 : simEnv.readBit ⟨devs, parts, SimMode.searching bit 0⟩ =
        (parts.all (fun d => Nat.testBit d bit),
         ⟨devs, parts, SimMode.searching bit 1⟩) := rfl
    have hr2 : simEnv.readBit ⟨devs, parts, SimMode.searching bit 1⟩ =
        (parts.all (fun d => !Nat.testBit d bit),
         ⟨devs, parts, SimMode.searching bit 2⟩) := rfl
    have hwT : simEnv.writeBit true ⟨devs, parts, SimMode.searching bit 2⟩ =
        ⟨devs, parts.filter (fun d => Nat.testBit d bit == true),
         SimMode.searching (bit+1) 0⟩ := rfl
    have hwF : simEnv.writeBit false ⟨devs, parts, SimMode.searching bit 2⟩ =
        ⟨devs, parts.filter (fun d => Nat.testBit d bit == false),
         SimMode.searching (bit+1) 0⟩ := rfl
    have harith : bit + 1 + rem = bit + (rem + 1) := by omega
    simp only [passFrom, hr1, hr2, hwT, hwF]
    cases hA : parts.all (fun d => Nat.testBit d bit) <;>
      cases hB : parts.all (fun d => !Nat.testBit d bit)
    · -- (0,0): conflict
      obtain ⟨x, hxm, hxb⟩ := List.all_eq_false.mp hA
      have hxb2 : Nat.testBit x bit = false := by simpa using hxb
      obtain ⟨y, hym, hyb⟩ := List.all_eq_false.mp hB
      have hyb2 : Nat.testBit y bit = true := by simpa using hyb
      simp only [Bool.not_false, Bool.and_self, if_true, ite_true]
      by_cases hl : lastH = bit
      · -- resolved conflict: write 1, record the bit
        rw [if_pos hl, set_ID_bit_true]
        have hfne : parts.filter (fun d => Nat.testBit d bit == true) ≠ [] :=
          List.ne_nil_of_mem (List.mem_filter.mpr ⟨hym, by simp [hyb2]⟩)
        obtain ⟨hs2, ha2, hh2⟩ := sim_filter_true devs parts bit acc hsub hagr hhi
        obtain ⟨pf, acc2, hc2, cf2, heq, h1, h2, h3, h4⟩ :=
          ih (bit+1) (acc ||| 2 ^ bit) hc cf lastH _ hfne hs2 ha2 hh2
        rw [harith] at heq h3 h4
        exact ⟨pf, acc2, hc2, cf2, heq, h1, h2, h3, h4⟩
      · -- new conflict: write 0, bit stays 0
        rw [if_neg hl]
        have hfne : parts.filter (fun d => Nat.testBit d bit == false) ≠ [] :=
          List.ne_nil_of_mem (List.mem_filter.mpr ⟨hxm, by simp [hxb2]⟩)
        obtain ⟨hs2, ha2, hh2⟩ := sim_filter_false devs parts bit acc hsub hagr hhi
        obtain ⟨pf, acc2, hc2, cf2, heq, h1, h2, h3, h4⟩ :=
          ih (bit+1) acc bit true lastH _ hfne hs2 ha2 hh2
        rw [harith] at heq h3 h4
        exact ⟨pf, acc2, hc2, cf2, heq, h1, h2, h3, h4⟩
    · -- (0,1): all devices have 0, write 0
      obtain ⟨x, hxm, hxb⟩ := List.all_eq_false.mp hA
      have hxb2 : Nat.testBit x bit = false := by simpa using hxb
      simp only [Bool.not_false, Bool.not_true, Bool.and_false, Bool.false_and,
        Bool.and_true, if_false, ite_false, if_true, ite_true]
      have hfne : parts.filter (fun d => Nat.testBit d bit == false) ≠ [] :=
        List.ne_nil_of_mem (List.mem_filter.mpr ⟨hxm, by simp [hxb2]⟩)
      obtain ⟨hs2, ha2, hh2⟩ := sim_filter_false devs parts bit acc hsub hagr hhi
      obtain ⟨pf, acc2, hc2, cf2, heq, h1, h2, h3, h4⟩ :=
        ih (bit+1) acc hc cf lastH _ hfne hs2 ha2 hh2
      rw [harith] at heq h3 h4
      exact ⟨pf, acc2, hc2, cf2, heq, h1, h2, h3, h4⟩
    · -- (1,0): all devices have 1, record the bit, write 1
      obtain ⟨x, hxm⟩ := List.exists_mem_of_ne_nil parts hne
      have hxb2 : Nat.testBit x bit = true := List.all_eq_true.mp hA x hxm
      simp only [Bool.not_false, Bool.not_true, Bool.and_false, Bool.false_and,
        Bool.true_and, Bool.and_true, if_false, ite_false, if_true, ite_true]
      rw [set_ID_bit_true]
      have hfne : parts.filter (fun d => Nat.testBit d bit == true) ≠ [] :=
        List.ne_nil_of_mem (List.mem_filter.mpr ⟨hxm, by simp [hxb2]⟩)
      obtain ⟨hs2, ha2, hh2⟩ := sim_filter_true devs parts bit acc hsub hagr hhi
      obtain ⟨pf, acc2, hc2, cf2, heq, h1, h2, h3, h4⟩ :=
        ih (bit+1) (acc ||| 2 ^ bit) hc cf lastH _ hfne hs2 ha2 hh2
      rw [harith] at heq h3 h4
      exact ⟨pf, acc2, hc2, cf2, heq, h1, h2, h3, h4⟩
    · -- (1,1): impossible while devices participate
      obtain ⟨x, hxm⟩ := List.exists_mem_of_ne_nil parts hne
      have hxb1 : Nat.testBit x bit = true := List.all_eq_true.mp hA x hxm
      have hxb2 : (!Nat.testBit x bit) = true := List.all_eq_true.mp hB x hxm
      rw [hxb1] at hxb2
      exact absurd hxb2 (by simp)

theorem pass_acc_mem (devs pf : List Nat) (acc2 : Nat)
    (hdev : ∀ d, d ∈ devs → d < 2 ^ 64)
    (hne : pf ≠ []) (hsub : ∀ d, d ∈ pf → d ∈ devs)
    (hagr : ∀ d, d ∈ pf → ∀ j, j < 64 → Nat.testBit d j = Nat.testBit acc2 j)
    (hhi : ∀ j, 64 ≤ j → Nat.testBit acc2 j = false) :
    acc2 ∈ devs := by
  obtain ⟨d0, hd0⟩ := List.exists_mem_of_ne_nil pf hne
  have hd0acc : d0 = acc2 := by
    apply Nat.eq_of_testBit_eq
    intro j
    by_cases hj : j < 64
    · exact hagr d0 hd0 j hj
    · rw [hhi j (by omega)]
      exact Nat.testBit_lt_two_pow (lt_of_lt_of_le (hdev d0 (hsub d0 hd0))
        (Nat.pow_le_pow_right (by norm_num) (by omega)))
  rw [← hd0acc]
  exact hsub d0 hd0

theorem searchFrom_preserves_below {S : Type} (E : OWEnv S) :
    ∀ (rem : Nat) (reg : Fin AOWI_NUM_IDS → Nat) (whichID hc : Nat) (s : S)
      (i : Fin AOWI_NUM_IDS), i.val < whichID →
      (searchFrom E rem reg whichID hc s).reg i = reg i := by
  intro rem
  induction rem with
  | zero =>
    intro reg whichID hc s i _
    rfl
  | succ rem ih =>
    intro reg whichID hc s i hi
    simp only [searchFrom]
    split
    · rfl
    · split
      · show regSet reg whichID _ i = reg i
        unfold regSet
        rw [if_neg (by omega : ¬ i.val = whichID)]
      · show (searchFrom E rem (regSet reg whichID _) (whichID+1) _ _).reg i = reg i
        rw [ih _ (whichID+1) _ _ i (by omega)]
        unfold regSet
        rw [if_neg (by omega : ¬ i.val = whichID)]

theorem searchFrom_step_split {S : Type} (E : OWEnv S) (s : S)
    (reg : Fin AOWI_NUM_IDS → Nat) (rem whichID hc : Nat)
    (hpr : (E.resetE s).1 = true) :
    (searchFrom E (rem+1) reg whichID hc s).reg =
      (if (!(passFrom E hc 0 64 0 99 false
             (writeByteE E 0xF0 (E.resetE s).2)).conflict ||
           (passFrom E hc 0 64 0 99 false
             (writeByteE E 0xF0 (E.resetE s).2)).err) = true
       then regSet reg whichID (passFrom E hc 0 64 0 99 false
         (writeByteE E 0xF0 (E.resetE s).2)).acc
       else (searchFrom E rem
         (regSet reg whichID (passFrom E hc 0 64 0 99 false
           (writeByteE E 0xF0 (E.resetE s).2)).acc)
         (whichID+1)
         (passFrom E hc 0 64 0 99 false (writeByteE E 0xF0 (E.resetE s).2)).hc
         (passFrom E hc 0 64 0 99 false
           (writeByteE E 0xF0 (E.resetE s).2)).st).reg) := by
  simp only [searchFrom, hpr, Bool.not_true, Bool.false_eq_true, if_false]
  split
  · rfl
  · rfl

theorem searchFrom_sim_sound (devs : List Nat)
    (hdev : ∀ d, d ∈ devs → d < 2 ^ 64) :
    ∀ (rem : Nat) (reg : Fin AOWI_NUM_IDS → Nat) (whichID hc : Nat)
      (parts : List Nat) (m : SimMode),
      (∀ i : Fin AOWI_NUM_IDS, reg i = 0 ∨ reg i ∈ devs) →
      ∀ i : Fin AOWI_NUM_IDS,
        (searchFrom simEnv rem reg whichID hc ⟨devs, parts, m⟩).reg i = 0 ∨
        (searchFrom simEnv rem reg whichID hc ⟨devs, parts, m⟩).reg i ∈ devs := by
  intro rem
  induction rem with
  | zero =>
    intro reg whichID hc parts m hreg i
    exact hreg i
  | succ rem ih =>
    intro reg whichID hc parts m hreg i
    by_cases hemp : devs.isEmpty
    · have hres : simEnv.resetE ⟨devs, parts, m⟩ =
          (false, ⟨devs, devs, SimMode.cmd 0 0⟩) := by
        simp [simEnv, simReset, hemp]
      simp only [searchFrom, hres, Bool.not_false, if_true, ite_true]
      exact hreg i
    · have hres : simEnv.resetE ⟨devs, parts, m⟩ =
          (true, ⟨devs, devs, SimMode.cmd 0 0⟩) := by
        simp [simEnv, simReset, hemp]
      have hwb : writeByteE simEnv 0xF0 ⟨devs, devs, SimMode.cmd 0 0⟩ =
          ⟨devs, devs, SimMode.searching 0 0⟩ := rfl
      have hdevne : devs ≠ [] := by
        intro hcon
        rw [hcon] at hemp
        exact hemp rfl
      obtain ⟨pf, acc2, hc2, cf2, heq, hne2, hsub2, hagr2, hhi2⟩ :=
        passFrom_sim devs 64 0 0 99 false hc devs hdevne (fun d hd => hd)
          (fun d hd j hj => absurd hj (by omega))
          (fun j _ => Nat.zero_testBit j)
      have hacc2 : acc2 ∈ devs :=
        pass_acc_mem devs pf acc2 hdev hne2 hsub2 hagr2 hhi2
      have hreg2 : ∀ i2 : Fin AOWI_NUM_IDS,
          regSet reg whichID acc2 i2 = 0 ∨ regSet reg whichID acc2 i2 ∈ devs := by
        intro i2
        unfold regSet
        by_cases hi2 : i2.val = whichID
        · rw [if_pos hi2]
          exact Or.inr hacc2
        · rw [if_neg hi2]
          exact hreg i2
      simp only [searchFrom, hres, Bool.not_true, Bool.false_eq_true, if_false,
        hwb, heq, ite_false]
      cases cf2
      · simp only [Bool.not_false, Bool.or_false, if_true, ite_true]
        exact hreg2 i
      · simp only [Bool.not_true, Bool.or_false, Bool.false_eq_true, if_false,
          ite_false]
        exact ih (regSet reg whichID acc2) (whichID+1) hc2 pf
          (SimMode.searching 64 0) hreg2 i

/-- C1 (amended): on a synthetic bus carrying distinct 64-bit identifiers
(at most the Registry capacity), a single `search()` stores in every slot
either zero or the exact identifier of one of the bus devices — slot 0, as
soon as any device is present, holds a genuine device identifier — but the
populated slots need not be exactly the k devices: a device can be missed,
one identifier can occupy several slots, and the discovery order follows
the LSB-first trie rather than ascending numeric order. -/
theorem search_slots_sound (devs : List Nat) (prior : Fin AOWI_NUM_IDS → Nat)
    (hdev : ∀ d, d ∈ devs → d < 2 ^ 64) :
    (∀ i : Fin AOWI_NUM_IDS,
      (search simEnv (simInit devs) prior).reg i = 0 ∨
      (search simEnv (simInit devs) prior).reg i ∈ devs) ∧
    (devs ≠ [] → (search simEnv (simInit devs) prior).reg 0 ∈ devs) := by
  constructor
  · exact searchFrom_sim_sound devs hdev AOWI_NUM_IDS (clear_table prior) 0 99
      [] SimMode.idle (fun i => Or.inl rfl)
  · intro hdevne
    have hemp : devs.isEmpty = false := by
      cases devs with
      | nil => exact absurd rfl hdevne
      | cons a l => rfl
    have hres : simEnv.resetE (simInit devs) =
        (true, ⟨devs, devs, SimMode.cmd 0 0⟩) := by
      simp [simEnv, simReset, simInit, hemp]
    have hwb : writeByteE simEnv 0xF0 ⟨devs, devs, SimMode.cmd 0 0⟩ =
        ⟨devs, devs, SimMode.searching 0 0⟩ := rfl
    obtain ⟨pf, acc2, hc2, cf2, heq, hne2, hsub2, hagr2, hhi2⟩ :=
      passFrom_sim devs 64 0 0 99 false 99 devs hdevne (fun d hd => hd)
        (fun d hd j hj => absurd hj (by omega))
        (fun j _ => Nat.zero_testBit j)
    have hacc2 : acc2 ∈ devs :=
      pass_acc_mem devs pf acc2 hdev hne2 hsub2 hagr2 hhi2
    have hslot : regSet (clear_table prior) 0 acc2 0 = acc2 := rfl
    have hsplit := searchFrom_step_split simEnv (simInit devs)
      (clear_table prior) 2 0 99 (by rw [hres])
    rw [hres] at hsplit
    rw [hwb] at hsplit
    simp only [heq] at hsplit
    show (searchFrom simEnv (2+1) (clear_table prior) 0 99 (simInit devs)).reg 0
      ∈ devs
    rw [hsplit]
    cases cf2
    · simp only [Bool.not_false, Bool.or_false, if_true, ite_true]
      rw [hslot]
      exact hacc2
    · simp only [Bool.not_true, Bool.or_false, Bool.false_eq_true, if_false,
        ite_false]
      rw [searchFrom_preserves_below simEnv 2 _ 1 hc2 _ 0 (by norm_num)]
      rw [hslot]
      exact hacc2

theorem search_slots_sound_witness :
    (∀ d, d ∈ [0x10AABBCCDDEE7A, 0x22112233445B] → d < 2 ^ 64) ∧
    (([0x10AABBCCDDEE7A, 0x22112233445B] : List Nat) ≠ [] →
      (search simEnv (simInit [0x10AABBCCDDEE7A, 0x22112233445B])
        (fun _ => 0)).reg 0 ∈ [0x10AABBCCDDEE7A, 0x22112233445B]) :=
  ⟨by decide,
   (search_slots_sound [0x10AABBCCDDEE7A, 0x22112233445B] (fun _ => 0)
     (by decide)).2⟩

/-- C1 counterexample: on the synthetic bus carrying the three distinct
identifiers 1, 2 and 3 (k = 3 = capacity), `search()` stores [2, 1, 2]:
slot 2 repeats the identifier already in slot 0, device 3 is never
discovered, and the populated slots are not in strictly ascending order. -/
theorem search_not_ascending_counterexample :
    (search simEnv (simInit [1, 2, 3]) (fun _ => 0)).reg 0 = 2 ∧
    (search simEnv (simInit [1, 2, 3]) (fun _ => 0)).reg 1 = 1 ∧
    (search simEnv (simInit [1, 2, 3]) (fun _ => 0)).reg 2 = 2 ∧
    ¬ ((search simEnv (simInit [1, 2, 3]) (fun _ => 0)).reg 0 <
       (search simEnv (simInit [1, 2, 3]) (fun _ => 0)).reg 1) ∧
    (∀ i : Fin AOWI_NUM_IDS,
      (search simEnv (simInit [1, 2, 3]) (fun _ => 0)).reg i ≠ 3) := by
  decide

end OWire
